import Mathlib

/-!
Verification of the manifests-diff action: a shallow embedding of the diff
engine (`ManifestComparator`) and the report paginator (`GitHubPRCommenter`)
from the repository sources, together with theorems settling the frozen
claims about them.

Modelling conventions:
* YAML documents are modelled as ordered trees (`YamlValue`); maps keep their
  entries in document order, so serialisation functions can be faithful to
  the order-preserving `Document.toString()` of the `yaml` package and to the
  key-sorting `yaml.dump(obj, { sortKeys: true })` of `js-yaml`.
* JavaScript `Map` objects are modelled as association lists in insertion
  order; `Map.set` keeps the original position of an existing key while
  replacing its value.
* Asynchronous channel calls (GitHub REST/GraphQL) are modelled with explicit
  success oracles, and the functions return the trace of calls they attempted,
  so that error-propagation claims become statements about those traces.
* String lengths are counted in characters (JavaScript counts UTF-16 code
  units; the difference does not affect any claim, which are all structural
  statements about the length comparisons the code performs).
-/

namespace ManifestsDiff

/-- A parsed YAML document value, as produced by the YAML libraries used in
`manifest-comparator.ts`.  Mapping entries are kept in document order. -/
inductive YamlValue where
  | null : YamlValue
  | bool (b : Bool) : YamlValue
  | num (n : Int) : YamlValue
  | str (s : String) : YamlValue
  | seq (items : List YamlValue) : YamlValue
  | map (entries : List (String × YamlValue)) : YamlValue
deriving Repr

/-- Lexicographic comparison of character lists by code point: the string
order JavaScript's `<` and the default `Array.prototype.sort` comparator
induce (JavaScript compares UTF-16 code units; the orders agree on every
key occurring here). -/
def charListLe : List Char → List Char → Bool
  | [], _ => true
  | _ :: _, [] => false
  | a :: as, b :: bs =>
    if a.toNat < b.toNat then true
    else if a.toNat = b.toNat then charListLe as bs
    else false

/-- Lexicographic string comparison by code point. -/
def strLe (a b : String) : Bool :=
  charListLe a.data b.data

namespace YamlValue

/-- Looks up a field of a mapping (JavaScript property access `obj.k` on a
parsed YAML object); `none` both for a missing key and for a non-mapping. -/
def field : YamlValue → String → Option YamlValue
  | .map entries, k => (entries.find? (fun p => p.1 == k)).map (·.2)
  | _, _ => none

/-- JavaScript truthiness of a parsed YAML value (`null`, `false`, `0`, and
the empty string are falsy; objects and arrays are always truthy). -/
def jsTruthy : YamlValue → Bool
  | .null => false
  | .bool b => b
  | .num n => n != 0
  | .str s => s != ""
  | .seq _ => true
  | .map _ => true

mutual

/-- JavaScript string coercion of a parsed YAML value, as used by template
literals such as `` `${namespace}` `` in `getObjectKey`. -/
def jsToString : YamlValue → String
  | .null => "null"
  | .bool b => cond b "true" "false"
  | .num n => toString n
  | .str s => s
  | .seq items => jsToStringSeq items
  | .map _ => "[object Object]"
termination_by structural v => v

/-- JavaScript `Array.prototype.toString`: elements joined with commas. -/
def jsToStringSeq : List YamlValue → String
  | [] => ""
  | [v] => jsToString v
  | v :: vs => jsToString v ++ "," ++ jsToStringSeq vs
termination_by structural l => l

end

mutual

/-- Deterministic textual serialisation of a document that preserves the
document's own field order, modelling `Document.toString()` of the `yaml`
package (used by `computeDiffs` in `src/manifest-comparator.ts`) and
`yaml.dump` of `js-yaml`.  The concrete syntax is an abstraction; what the
claims rely on is that it is a function of the ordered tree. -/
def renderYaml : YamlValue → String
  | .null => "null"
  | .bool b => cond b "true" "false"
  | .num n => toString n
  | .str s => "\"" ++ s ++ "\""
  | .seq items => "[" ++ renderYamlSeq items ++ "]"
  | .map entries => "<" ++ renderYamlMap entries ++ ">"
termination_by structural v => v

/-- Serialises the items of a sequence in order. -/
def renderYamlSeq : List YamlValue → String
  | [] => ""
  | [v] => renderYaml v
  | v :: vs => renderYaml v ++ ", " ++ renderYamlSeq vs
termination_by structural l => l

/-- Serialises the entries of a mapping in their stored order. -/
def renderYamlMap : List (String × YamlValue) → String
  | [] => ""
  | [(k, v)] => k ++ ": " ++ renderYaml v
  | (k, v) :: es => k ++ ": " ++ renderYaml v ++ ", " ++ renderYamlMap es
termination_by structural l => l

end

/-- Inserts a mapping entry into a key-sorted list of entries, by key
(string comparison, as `js-yaml`'s `sortKeys: true` does). -/
def insertByKey (p : String × YamlValue) :
    List (String × YamlValue) → List (String × YamlValue)
  | [] => [p]
  | q :: qs => if strLe p.1 q.1 then p :: q :: qs else q :: insertByKey p qs

/-- Sorts a list of mapping entries by key. -/
def sortPairsByKey (es : List (String × YamlValue)) :
    List (String × YamlValue) :=
  es.foldr insertByKey []

mutual

/-- Recursively sorts every mapping of a document by key: the value ordering
imposed by `yaml.dump(obj, { sortKeys: true })`, and the "lexicographic key
sort at every nesting level" of the specification's canonical form. -/
def sortKeys : YamlValue → YamlValue
  | .null => .null
  | .bool b => .bool b
  | .num n => .num n
  | .str s => .str s
  | .seq items => .seq (sortKeysSeq items)
  | .map entries => .map (sortPairsByKey (sortKeysMap entries))
termination_by structural v => v

/-- Sorts keys inside every item of a sequence. -/
def sortKeysSeq : List YamlValue → List YamlValue
  | [] => []
  | v :: vs => sortKeys v :: sortKeysSeq vs
termination_by structural l => l

/-- Sorts keys inside every value of a mapping's entries. -/
def sortKeysMap : List (String × YamlValue) → List (String × YamlValue)
  | [] => []
  | (k, v) :: es => (k, sortKeys v) :: sortKeysMap es
termination_by structural l => l

end

/-- Canonical, deterministically ordered serialisation in the sense of the
specification's words: "serialize both documents to a canonical,
deterministically ordered textual form (stable field ordering, e.g.
lexicographic key sort at every nesting level)".  This definition follows the
spec, for comparison against the serialisation the code actually uses. -/
def renderCanonical (v : YamlValue) : String :=
  renderYaml (sortKeys v)

end YamlValue

/-! ## Constants (`src/constants.ts`) -/

namespace KUBERNETES

/-- Models `KUBERNETES.DEFAULT_NAMESPACE` from `src/constants.ts`. -/
def DEFAULT_NAMESPACE : String := "default"

end KUBERNETES

/-! ## Manifest comparator (`src/manifest-comparator.ts`) -/

/-- The `KubernetesObject` interface of `src/types.ts`: the three required
identity fields plus the optional `metadata.namespace`. -/
structure KubernetesObject where
  apiVersion : String
  kind : String
  name : String
  namespaceField : Option String
deriving Repr, DecidableEq

/-- Models `ManifestComparator.getObjectKey` over the `KubernetesObject` interface:
`` `${obj.apiVersion}/${obj.kind}/${namespace}/${obj.metadata.name}` `` with
`const namespace = obj.metadata.namespace || KUBERNETES.DEFAULT_NAMESPACE`
(JavaScript `||`: both an absent field and the empty string are falsy). -/
def getObjectKey (obj : KubernetesObject) : String :=
  let ns := match obj.namespaceField with
    | none => KUBERNETES.DEFAULT_NAMESPACE
    | some s => if s = "" then KUBERNETES.DEFAULT_NAMESPACE else s
  obj.apiVersion ++ "/" ++ obj.kind ++ "/" ++ ns ++ "/" ++ obj.name

/-- Models `ManifestComparator.isValidKubernetesObject` from
`src/manifest-comparator.ts`: the decoded value is an object and `kind`,
`apiVersion` and `metadata.name` all have `typeof … === 'string'` (note that
the empty string is a string, and that `obj.metadata` must be truthy, which
for a field access to `name` to yield a string forces `metadata` to be a
mapping). -/
def isValidKubernetesObject (v : YamlValue) : Bool :=
  match v with
  | .map _ =>
    (match v.field "kind" with | some (.str _) => true | _ => false) &&
    (match v.field "apiVersion" with | some (.str _) => true | _ => false) &&
    (match v.field "metadata" with
      | some md =>
        md.jsTruthy &&
        (match md.field "name" with | some (.str _) => true | _ => false)
      | _ => false)
  | _ => false

/-- Models `ManifestComparator.getObjectKey` as applied at runtime to a decoded YAML
value (the `doc.toJS() as KubernetesObject` call site): field accesses and
template-literal coercion happen on the dynamic value. -/
def getObjectKeyV (v : YamlValue) : String :=
  let strOf : Option YamlValue → String := fun o => match o with
    | none => "undefined"
    | some w => w.jsToString
  let nsv := (v.field "metadata").bind (·.field "namespace")
  let ns := match nsv with
    | none => KUBERNETES.DEFAULT_NAMESPACE
    | some w => if w.jsTruthy then w.jsToString else KUBERNETES.DEFAULT_NAMESPACE
  strOf (v.field "apiVersion") ++ "/" ++ strOf (v.field "kind") ++ "/" ++
    ns ++ "/" ++ strOf ((v.field "metadata").bind (·.field "name"))

/-- A keyed collection of parsed documents: a JavaScript `Map` in insertion
order, with unique keys maintained by `mapSet`. -/
abbrev ObjectMap := List (String × YamlValue)

/-- JavaScript `Map.prototype.set`: replaces the value of an existing key in
place (keeping the key's original insertion position), otherwise appends. -/
def mapSet (m : ObjectMap) (k : String) (v : YamlValue) : ObjectMap :=
  match m with
  | [] => [(k, v)]
  | p :: ps => if p.1 == k then (k, v) :: ps else p :: mapSet ps k v

/-- JavaScript `Map.prototype.get` (an absent key yields `undefined`). -/
def mapGet (m : ObjectMap) (k : String) : Option YamlValue :=
  (m.find? (fun p => p.1 == k)).map (·.2)

/-- Models `ManifestComparator.parseManifests` of `src/manifest-comparator.ts`,
modelled from the point where the input text has been split on document
separators and every fragment decoded: the list element for a fragment is the
value of `doc.toJS()` (`parseDocument` never throws; an empty fragment — e.g.
one produced by a leading or trailing `---` line, which this variant does not
discard — decodes to `null`).  Every decoded value is validated with
`isValidKubernetesObject`; the first invalid one raises the error that the
surrounding `try`/`catch` rethrows, otherwise the document is inserted under
its object key, overwriting any earlier entry (last wins). -/
def parseManifests (docs : List YamlValue) : Except String ObjectMap :=
  go [] docs
where
  /-- Loop of `parseManifests`, carrying the `objects` map. -/
  go (objects : ObjectMap) : List YamlValue → Except String ObjectMap
    | [] => .ok objects
    | d :: ds =>
      if isValidKubernetesObject d then
        go (mapSet objects (getObjectKeyV d) d) ds
      else
        .error "Invalid Kubernetes object"

/-- Status of one change record (`ManifestDiff.status` in `src/types.ts`). -/
inductive DiffStatus where
  | added
  | removed
  | modified
deriving Repr, DecidableEq

/-- The `ManifestDiff` record of `src/types.ts`. -/
structure ManifestDiff where
  objectKey : String
  status : DiffStatus
  currentObject : Option YamlValue := none
  targetObject : Option YamlValue := none
  diff : Option String := none
deriving Repr

/-- Models `createTwoFilesPatch` of the `diff` library: a pure function of
its arguments; no claim inspects the patch text itself, so its concrete shape
only needs to be deterministic. -/
def createTwoFilesPatch (oldFile newFile oldStr newStr : String) : String :=
  "--- " ++ oldFile ++ "\n+++ " ++ newFile ++ "\n-" ++ oldStr ++ "\n+" ++ newStr

/-- First-occurrence deduplication: JavaScript
`new Set([...a.keys(), ...b.keys()])` keeps the first insertion of a key. -/
def dedupFirst (seen : List String) : List String → List String
  | [] => []
  | k :: ks =>
    if k ∈ seen then dedupFirst seen ks else k :: dedupFirst (k :: seen) ks

/-- Models `const allKeys = new Set([...currentObjects.keys(), ...targetObjects.keys()])`
in `computeDiffs`: the keys of `current` in insertion order followed by the
keys only in `target`, in insertion order. -/
def unionKeys (currentObjects targetObjects : ObjectMap) : List String :=
  dedupFirst [] (currentObjects.map Prod.fst ++ targetObjects.map Prod.fst)

/-- JavaScript truthiness of a `Map.get` result: an absent key yields
`undefined` (falsy); a present value is tested for truthiness. -/
def truthyOpt : Option YamlValue → Bool
  | none => false
  | some v => v.jsTruthy

/-- Body of the `for (const key of allKeys)` loop of
`ManifestComparator.computeDiffs` (`src/manifest-comparator.ts`): the records
pushed for one key.  The branch guards `!currentObj && targetObj` etc. are
JavaScript truthiness tests; shared keys are compared through the
serialisations `currentObj.toString()` / `targetObj.toString()`
(order-preserving). -/
def diffForKey (currentObjects targetObjects : ObjectMap) (key : String) :
    List ManifestDiff :=
  let currentObj := mapGet currentObjects key
  let targetObj := mapGet targetObjects key
  if !truthyOpt currentObj && truthyOpt targetObj then
    [{ objectKey := key, status := .removed, targetObject := targetObj }]
  else if truthyOpt currentObj && !truthyOpt targetObj then
    [{ objectKey := key, status := .added, currentObject := currentObj }]
  else if truthyOpt currentObj && truthyOpt targetObj then
    match currentObj, targetObj with
    | some c, some t =>
      let currentYaml := c.renderYaml
      let targetYaml := t.renderYaml
      if currentYaml ≠ targetYaml then
        [{ objectKey := key, status := .modified,
           currentObject := some c, targetObject := some t,
           diff := some (createTwoFilesPatch ("target/" ++ key)
             ("current/" ++ key) targetYaml currentYaml) }]
      else []
    | _, _ => []
  else []

/-- Models `ManifestComparator.computeDiffs` on the two parsed collections: iterates
the key union in insertion order and pushes the records of `diffForKey`. -/
def computeDiffs (currentObjects targetObjects : ObjectMap) :
    List ManifestDiff :=
  (unionKeys currentObjects targetObjects).flatMap
    (diffForKey currentObjects targetObjects)

/-! ## Comment constants (`src/constants.ts`) -/

namespace GITHUB

/-- Models `GITHUB.MAX_COMMENT_LENGTH`. -/
def MAX_COMMENT_LENGTH : Nat := 60000

/-- Models `GITHUB.COMMENT_LENGTH_BUFFER`. -/
def COMMENT_LENGTH_BUFFER : Nat := 100

end GITHUB

namespace COMMENTS

/-- Models `COMMENTS.CONTINUATION_TEXT`. -/
def CONTINUATION_TEXT : String := "\n\n---\n*Continued in next comment...*"

/-- Models `COMMENTS.CONTINUATION_HEADER`. -/
def CONTINUATION_HEADER : String :=
  "## 🔍 Kubernetes Manifests Diff (continued)\n\n"

/-- Models `COMMENTS.HEADER_TEMPLATE`. -/
def HEADER_TEMPLATE : String :=
  "## 🔍 Kubernetes Manifests Diff\n\nFound **{totalCount}** differences: {addedCount} added, {removedCount} removed, {modifiedCount} modified\n\n"

/-- Models `COMMENTS.FOOTER_TEMPLATE`. -/
def FOOTER_TEMPLATE : String :=
  "\n<hr>\n\n**Summary:** {addedCount} added, {removedCount} removed, {modifiedCount} modified\n\n<details>\n<summary>ℹ️ How to read this diff</summary>\n\n- ➕ **Added**: New Kubernetes objects that will be created\n- ➖ **Removed**: Existing Kubernetes objects that will be deleted  \n- 🔄 **Modified**: Existing Kubernetes objects that will be changed\n\nObjects are identified by: `{apiVersion}/{kind}/{namespace}/{name}`\n</details>\n"

end COMMENTS

/-! ## GitHub PR commenter (`src/github-pr-commenter.ts`) -/

/-- A value of the `Record<string, string | number>` passed to
`replacePlaceholders`. -/
inductive TemplateValue where
  | str (s : String)
  | num (n : Nat)
deriving Repr, DecidableEq

/-- JavaScript `.toString()` on a template value. -/
def TemplateValue.render : TemplateValue → String
  | .str s => s
  | .num n => toString n

/-- A character matched by the regular-expression class `\w`. -/
def isWordChar (c : Char) : Bool :=
  c.isAlphanum || c = '_'

/-- The replacement callback of `replacePlaceholders`:
`values[key]?.toString() || match` — an unknown key, and also a value whose
string form is empty (JavaScript `||` treats the empty string as falsy),
leave the matched placeholder text in place. -/
def placeholderSubst (values : List (String × TemplateValue)) (name : String) :
    String :=
  let matchText := "\x7b" ++ name ++ "\x7d"
  match values.find? (fun p => p.1 == name) with
  | none => matchText
  | some p => if p.2.render = "" then matchText else p.2.render

/-- State of the left-to-right scan of `template.replace(/{(\w+)}/g, …)`:
either outside any candidate match, or inside one, holding the word
characters read since the opening brace. -/
inductive ScanMode where
  | outside : ScanMode
  | inside (acc : List Char) : ScanMode
deriving Repr, DecidableEq

/-- The global scan of `template.replace(/{(\w+)}/g, …)` as a character state
machine: at a `{` the regex requires one or more word characters followed
directly by `}` (greedy matching of `\w+` coincides with maximal munch since
`}` is not a word character, and a failed candidate cannot hide a later match
start because only `{` can start a match); on a match the callback's result
is emitted and scanning resumes after it, otherwise the characters are copied
verbatim. -/
def scanChars (values : List (String × TemplateValue)) :
    ScanMode → List Char → List Char
  | .outside, [] => []
  | .outside, c :: cs =>
    if c = '\x7b' then scanChars values (.inside []) cs
    else c :: scanChars values .outside cs
  | .inside acc, [] => '\x7b' :: acc
  | .inside acc, c :: cs =>
    if isWordChar c then scanChars values (.inside (acc ++ [c])) cs
    else if c = '\x7d' ∧ acc ≠ [] then
      (placeholderSubst values (String.mk acc)).data
        ++ scanChars values .outside cs
    else if c = '\x7b' then
      ('\x7b' :: acc) ++ scanChars values (.inside []) cs
    else ('\x7b' :: acc) ++ (c :: scanChars values .outside cs)

/-- Models `GitHubPRCommenter.replacePlaceholders` from
`src/github-pr-commenter.ts`. -/
def replacePlaceholders (template : String)
    (values : List (String × TemplateValue)) : String :=
  String.mk (scanChars values .outside template.data)

/-- Models `GitHubPRCommenter.getDiffCounts`: `(totalCount, addedCount,
removedCount, modifiedCount)`. -/
def getDiffCounts (diffs : List ManifestDiff) : Nat × Nat × Nat × Nat :=
  (diffs.length,
   (diffs.filter (fun d => d.status == DiffStatus.added)).length,
   (diffs.filter (fun d => d.status == DiffStatus.removed)).length,
   (diffs.filter (fun d => d.status == DiffStatus.modified)).length)

/-- Models `GitHubPRCommenter.getCommentHeader`: the header template rendered with
the counts, the configured title, and the subtitle (wrapped in newlines when
non-empty, the empty string otherwise). -/
def getCommentHeader (title subtitle : String) (diffs : List ManifestDiff) :
    String :=
  let c := getDiffCounts diffs
  replacePlaceholders COMMENTS.HEADER_TEMPLATE
    [("totalCount", .num c.1), ("addedCount", .num c.2.1),
     ("removedCount", .num c.2.2.1), ("modifiedCount", .num c.2.2.2),
     ("title", .str title),
     ("subtitle", .str (if subtitle ≠ "" then "\n" ++ subtitle ++ "\n" else ""))]

/-- Models `GitHubPRCommenter.getCommentFooter`: the footer template rendered with
the counts. -/
def getCommentFooter (diffs : List ManifestDiff) : String :=
  let c := getDiffCounts diffs
  replacePlaceholders COMMENTS.FOOTER_TEMPLATE
    [("totalCount", .num c.1), ("addedCount", .num c.2.1),
     ("removedCount", .num c.2.2.1), ("modifiedCount", .num c.2.2.2)]

/-- Models `GitHubPRCommenter.getStatusEmoji`. -/
def getStatusEmoji : DiffStatus → String
  | .added => "➕"
  | .removed => "➖"
  | .modified => "🔄"

/-- Models `diff.status.toUpperCase()` on the status union type. -/
def statusUpper : DiffStatus → String
  | .added => "ADDED"
  | .removed => "REMOVED"
  | .modified => "MODIFIED"

/-- Models `GitHubPRCommenter.formatObjectAsYaml`:
`yaml.dump(obj, { sortKeys: true }).trim()`. -/
def formatObjectAsYaml (v : YamlValue) : String :=
  (YamlValue.renderYaml (YamlValue.sortKeys v)).trim

/-- Models `GitHubPRCommenter.formatObjectWithDiffSyntax`: every line of the sorted
YAML rendering prefixed with `+ ` or `- `. -/
def formatObjectWithDiffSyntax (v : YamlValue) (status : DiffStatus) : String :=
  let pre := if status == DiffStatus.added then "+" else "-"
  String.intercalate "\n"
    (((formatObjectAsYaml v).splitOn "\n").map (fun line => pre ++ " " ++ line))

/-- Models `GitHubPRCommenter.formatDiffSection` (the `<details>`-rendering variant
of `src/github-pr-commenter.ts`): one rendered block per change record; the
branch guards are JavaScript truthiness tests (`diff.diff` of a modified
record must be a non-empty string, `diff.currentObject` / `diff.targetObject`
must be truthy). -/
def formatDiffSection (d : ManifestDiff) : String :=
  if d.status == DiffStatus.modified &&
      (match d.diff with | some s => s != "" | none => false) then
    String.intercalate "\n"
      ["<details>\n<summary>" ++ getStatusEmoji d.status ++ " " ++
         statusUpper d.status ++ ": `" ++ d.objectKey ++ "`</summary>\n",
       "```diff", d.diff.getD "", "```\n</details>\n"]
  else if d.status == DiffStatus.added && truthyOpt d.currentObject then
    String.intercalate "\n"
      ["<details>\n<summary>" ++ getStatusEmoji d.status ++ " " ++
         statusUpper d.status ++ ": `" ++ d.objectKey ++ "`</summary>\n",
       "```diff", formatObjectWithDiffSyntax (d.currentObject.getD .null) .added,
       "```\n</details>\n"]
  else if d.status == DiffStatus.removed && truthyOpt d.targetObject then
    String.intercalate "\n"
      ["<details>\n<summary>" ++ getStatusEmoji d.status ++ " " ++
         statusUpper d.status ++ ": `" ++ d.objectKey ++ "`</summary>\n",
       "```diff", formatObjectWithDiffSyntax (d.targetObject.getD .null) .removed,
       "```\n</details>\n"]
  else
    "### " ++ getStatusEmoji d.status ++ " " ++ statusUpper d.status ++
      ": `" ++ d.objectKey ++ "`\n"

/-- One iteration of the packing loop of
`GitHubPRCommenter.formatDiffsAsComments`: if appending the block would
overflow `maxCommentLength` after reserving `footer.length +
COMMENT_LENGTH_BUFFER`, the current buffer is closed with the continuation
text and a new buffer starts from the continuation header; the block is then
appended unconditionally. -/
def paginateStep (maxCommentLength : Nat)
    (footer continuationText contHeader : String)
    (acc : List String × String) (diffSection : String) :
    List String × String :=
  let reservedSpace := footer.length + GITHUB.COMMENT_LENGTH_BUFFER
  if acc.2.length + diffSection.length + reservedSpace > maxCommentLength then
    (acc.1 ++ [acc.2 ++ continuationText], contHeader ++ diffSection)
  else
    (acc.1, acc.2 ++ diffSection)

/-- The continuation header rendered with the configured title:
`this.replacePlaceholders(COMMENTS.CONTINUATION_HEADER, { title: this.title })`. -/
def contHeaderRendered (title : String) : String :=
  replacePlaceholders COMMENTS.CONTINUATION_HEADER [("title", .str title)]

/-- Models `GitHubPRCommenter.formatDiffsAsComments` (the configurable variant of
`src/github-pr-commenter.ts`): greedy sequential packing of the rendered
blocks, starting from the rendered header, closing each full buffer with the
continuation text, opening every later buffer with the continuation header
(rendered with the title), and appending the footer to the last buffer. -/
def formatDiffsAsComments (title subtitle : String) (maxCommentLength : Nat)
    (diffs : List ManifestDiff) : List String :=
  let header := getCommentHeader title subtitle diffs
  let footer := getCommentFooter diffs
  let continuationText := COMMENTS.CONTINUATION_TEXT
  let contHeader := contHeaderRendered title
  let st := diffs.foldl
    (fun acc d =>
      paginateStep maxCommentLength footer continuationText contHeader acc
        (formatDiffSection d))
    ([], header)
  st.1 ++ [st.2 ++ footer]

/-! ## Channel interaction (`minimizeExistingComments`,
`postPullRequestComments`)

The GitHub calls are modelled with success oracles (`markOk`, `postOk`); the
functions return the trace of the calls they attempted, so that the claims
about error propagation become statements about those traces. -/

/-- One entry of the `listComments` response used by
`minimizeExistingComments` (`comment.user?.type`, `comment.body`,
`comment.node_id`). -/
structure PriorComment where
  node_id : String
  userType : Option String
  body : Option String
deriving Repr, DecidableEq

/-- The filter of `minimizeExistingComments`:
`comment.user?.type === 'Bot' && comment.body?.includes(` `🔍 ${this.title}` `)`
(an absent body is falsy). -/
def isBotDiffComment (title : String) (c : PriorComment) : Bool :=
  c.userType == some "Bot" &&
    (match c.body with
     | some b => decide (("🔍 " ++ title).data <:+: b.data)
     | none => false)

/-- The `for (const comment of botComments)` loop awaiting the
`minimizeComment` GraphQL mutation for each node id: the first failing call
throws, so the ids after it are never attempted.  Returns the attempted ids
and whether a failure occurred. -/
def markLoop (markOk : String → Bool) : List String → List String × Bool
  | [] => ([], false)
  | id :: ids =>
    if markOk id then
      let r := markLoop markOk ids
      (id :: r.1, r.2)
    else ([id], true)

/-- Models `GitHubPRCommenter.minimizeExistingComments`: lists the PR comments,
filters the bot-authored diff comments, and marks each one outdated inside a
single `try`/`catch` whose `catch` only logs a warning.  Returns the attempted
mark ids and whether the warning path was taken. -/
def minimizeExistingComments (title : String)
    (listing : Except String (List PriorComment)) (markOk : String → Bool) :
    List String × Bool :=
  match listing with
  | .error _ => ([], true)
  | .ok cs => markLoop markOk ((cs.filter (isBotDiffComment title)).map (·.node_id))

/-- The comment body posted when the diff list is empty. -/
def NO_DIFFERENCES_COMMENT : String :=
  "## 🎉 No manifest differences found\n\nAll Kubernetes manifests are identical between the current and target branches."

/-- The sequential `postComment` loop: the first failing post throws, so the
later segments are never attempted.  Returns the attempted bodies and whether
a failure occurred. -/
def postLoop (postOk : String → Bool) : List String → List String × Bool
  | [] => ([], false)
  | b :: bs =>
    if postOk b then
      let r := postLoop postOk bs
      (b :: r.1, r.2)
    else ([b], true)

/-- Observable outcome of `postPullRequestComments`: which mark calls and
post calls were attempted, and whether the console fallback ran. -/
structure PostRunResult where
  markAttempts : List String
  postAttempts : List String
  fellBack : Bool
deriving Repr, DecidableEq

/-- Models `GitHubPRCommenter.postPullRequestComments` on the pull-request path:
first `minimizeExistingComments` (which swallows its own failures), then the
new segments are posted in order inside the outer `try`, whose `catch` falls
back to console output. -/
def postPullRequestComments (title subtitle : String)
    (maxCommentLength : Nat) (listing : Except String (List PriorComment))
    (markOk postOk : String → Bool) (diffs : List ManifestDiff) :
    PostRunResult :=
  let minimized := minimizeExistingComments title listing markOk
  let bodies :=
    if diffs.isEmpty then [NO_DIFFERENCES_COMMENT]
    else formatDiffsAsComments title subtitle maxCommentLength diffs
  let posted := postLoop postOk bodies
  { markAttempts := minimized.1
    postAttempts := posted.1
    fellBack := posted.2 }

/-! # Theorems settling the claims -/

/-! ## Template substitution (claim C8) -/

/-- A template split into segments: literal text and `\x7bname\x7d`
placeholder occurrences. -/
inductive TemplateSeg where
  | text (s : String)
  | ph (name : String)
deriving Repr

/-- The template source text of a segment. -/
def TemplateSeg.renderSrc : TemplateSeg → String
  | .text s => s
  | .ph n => "\x7b" ++ n ++ "\x7d"

/-- The substituted text of a segment under a value mapping. -/
def substSeg (values : List (String × TemplateValue)) : TemplateSeg → String
  | .text s => s
  | .ph n => placeholderSubst values n

/-- Well-formed segment: literal text holds no opening brace; a placeholder
name is a non-empty run of word characters. -/
def segWF : TemplateSeg → Prop
  | .text s => '\x7b' ∉ s.data
  | .ph n => n.data ≠ [] ∧ ∀ ch ∈ n.data, isWordChar ch

instance : DecidablePred segWF := fun seg => by
  cases seg <;> dsimp [segWF] <;> infer_instance

/-! ## Claim-support definitions -/

/-- The sub-sequence of change records carrying a given object key. -/
def recordsForKey (diffs : List ManifestDiff) (k : String) :
    List ManifestDiff :=
  diffs.filter (fun r => r.objectKey == k)

/-- The sub-sequence of `modified` records carrying a given object key. -/
def modifiedFor (diffs : List ManifestDiff) (k : String) : List ManifestDiff :=
  diffs.filter (fun r => r.objectKey == k && r.status == DiffStatus.modified)

/-- Whether the diff loop emits a record for a key. -/
def emitsRecord (currentObjects targetObjects : ObjectMap) (k : String) :
    Bool :=
  !(diffForKey currentObjects targetObjects k).isEmpty

/-- The documents of a parse run paired with their object keys, in input
order. -/
def keyedDocs (docs : List YamlValue) : ObjectMap :=
  docs.map (fun d => (getObjectKeyV d, d))

/-- The lookup of a key in a successfully parsed collection (`none` when the
parse failed). -/
def parsedLookup (docs : List YamlValue) (k : String) :
    Option (Option YamlValue) :=
  (parseManifests docs).toOption.map (fun m => mapGet m k)

/-- Plain concatenation of a list of strings. -/
def concatStrings : List String → String
  | [] => ""
  | s :: ss => s ++ concatStrings ss

/-- Segment shape produced by the paginator for the chunks after the first:
every one opens with the continuation header; all but the last close with the
continuation text, the last closes with the footer. -/
def renderRest (ch c f : String) : List (List String) → List String
  | [] => []
  | [g] => [ch ++ concatStrings g ++ f]
  | g :: gs => (ch ++ concatStrings g ++ c) :: renderRest ch c f gs

/-- Segment shape produced by the paginator: the first segment opens with the
header, later ones with the continuation header; non-final segments close
with the continuation text, the final one with the footer. -/
def renderSegments (h ch c f : String) : List (List String) → List String
  | [] => []
  | [g] => [h ++ concatStrings g ++ f]
  | g :: gs => (h ++ concatStrings g ++ c) :: renderRest ch c f gs

/-- The closed segments accumulated by the packing loop, given the chunks it
closed: the first closed segment opens with `pre`, the rest with the
continuation header. -/
def closedSegsFrom (pre ch c : String) : List (List String) → List String
  | [] => []
  | g :: gs =>
    (pre ++ concatStrings g ++ c) ::
      gs.map (fun gi => ch ++ concatStrings gi ++ c)

/-- The opening text of the buffer left at the end of the packing loop. -/
def openPre (pre ch : String) (gs : List (List String)) : String :=
  if gs.isEmpty then pre else ch

/-- All report segments of a run fit within the configured maximum. -/
def allSegmentsWithin (title subtitle : String) (maxCommentLength : Nat)
    (diffs : List ManifestDiff) : Prop :=
  ∀ s ∈ formatDiffsAsComments title subtitle maxCommentLength diffs,
    s.length ≤ maxCommentLength

/-- Every rendered record block fits within the given bound. -/
def allBlocksWithin (bound : Nat) (diffs : List ManifestDiff) : Bool :=
  diffs.all (fun d => (formatDiffSection d).length ≤ bound)

/-- Some produced segment exceeds the configured maximum. -/
def anySegmentExceeds (title subtitle : String) (maxCommentLength : Nat)
    (diffs : List ManifestDiff) : Bool :=
  (formatDiffsAsComments title subtitle maxCommentLength diffs).any
    (fun s => maxCommentLength < s.length)

/-- The object keys of a record list, in record order. -/
def keysOf (diffs : List ManifestDiff) : List String :=
  diffs.map (·.objectKey)

/-- Adjacent keys of a list are in ascending lexicographic order. -/
def keysAscending : List String → Bool
  | [] => true
  | [_] => true
  | a :: b :: r => strLe a b && keysAscending (b :: r)

/-- The record list is sorted ascending (lexicographically) by object key. -/
def sortedByKeyAsc (diffs : List ManifestDiff) : Bool :=
  keysAscending (keysOf diffs)

/-! ## Concrete inputs used by counterexamples and witnesses -/

/-- A current collection whose insertion order is descending by key. -/
def c1Cur : ObjectMap :=
  [("b/b/b/b", .map [("x", .num 1)]), ("a/a/a/a", .map [("x", .num 2)])]

/-- A decoded document whose `kind` is present but the empty string. -/
def emptyKindDoc : YamlValue :=
  .map [("kind", .str ""), ("apiVersion", .str "v1"),
        ("metadata", .map [("name", .str "a")])]

/-- A valid document (first version of the payload). -/
def docA1 : YamlValue :=
  .map [("apiVersion", .str "v1"), ("kind", .str "ConfigMap"),
        ("metadata", .map [("name", .str "app")]), ("data", .str "old")]

/-- A valid document with the same identity as `docA1` and a different
payload. -/
def docA2 : YamlValue :=
  .map [("apiVersion", .str "v1"), ("kind", .str "ConfigMap"),
        ("metadata", .map [("name", .str "app")]), ("data", .str "new")]

/-- Current collection holding `docA1` under the key `"K"`. -/
def c4Cur : ObjectMap := [("K", docA1)]

/-- Target collection holding `docA2` under the key `"K"`. -/
def c4Tgt : ObjectMap := [("K", docA2)]

/-- A collection with a shared document and a private one. -/
def c6A : ObjectMap := [("shared", docA1), ("onlyA", docA2)]

/-- A collection holding the same document under the shared key. -/
def c6B : ObjectMap := [("shared", docA1)]

/-- A document with fields in one order. -/
def reorderedDoc1 : YamlValue :=
  .map [("apiVersion", .str "v1"), ("kind", .str "ConfigMap"),
        ("metadata", .map [("name", .str "a")])]

/-- The same document with its top-level fields in another order. -/
def reorderedDoc2 : YamlValue :=
  .map [("kind", .str "ConfigMap"), ("apiVersion", .str "v1"),
        ("metadata", .map [("name", .str "a")])]

/-- An object key long enough that its summary-line block nearly fills a
600-character segment limit. -/
def longKey : String := String.mk (List.replicate 544 'a')

/-- Two added records: the first block is 560 characters (below a limit of
600), the second is small. -/
def c3Diffs : List ManifestDiff :=
  [{ objectKey := longKey, status := .added },
   { objectKey := "z", status := .added }]

/-- A single small record used to instantiate the pagination bound. -/
def c3SmallDiffs : List ManifestDiff :=
  [{ objectKey := "app", status := .added }]

/-- A prior self-authored bot comment. -/
def priorBotA : PriorComment :=
  { node_id := "idA", userType := some "Bot",
    body := some "🔍 Kubernetes Manifests Diff\n\nFound **2** differences..." }

/-- A second prior self-authored bot comment. -/
def priorBotB : PriorComment :=
  { node_id := "idB", userType := some "Bot",
    body := some "🔍 Kubernetes Manifests Diff\n\nNo manifest differences found" }

/-- A mark oracle on which every `minimizeComment` mutation fails. -/
def alwaysFailMark : String → Bool := fun _ => false

/-- An object whose `metadata.namespace` is present but empty. -/
def nsEmptyObj : KubernetesObject :=
  { apiVersion := "v1", kind := "ConfigMap", name := "a",
    namespaceField := some "" }

/-- Template segments exercising substitution: a known numeric value, an
unknown name, and a known value rendering to the empty string. -/
def c8Segs : List TemplateSeg :=
  [.text "Found ", .ph "totalCount", .text " differences ",
   .ph "unknownName", .ph "subtitle"]

/-- Values for `c8Segs`. -/
def c8Values : List (String × TemplateValue) :=
  [("totalCount", .num 4), ("subtitle", .str "")]

/-! ## Lemmas and claim theorems -/

theorem scanChars_copy (values : List (String × TemplateValue))
    (s rest : List Char) (h : '\x7b' ∉ s) :
    scanChars values .outside (s ++ rest)
      = s ++ scanChars values .outside rest := by
  induction s with
  | nil => simp
  | cons c cs ih =>
    have hc : ¬ c = '\x7b' := by
      intro hc
      exact h (hc ▸ List.mem_cons_self c cs)
    have hcs : '\x7b' ∉ cs := fun hm => h (List.mem_cons_of_mem c hm)
    simp only [List.cons_append, scanChars, if_neg hc, List.append_eq]
    rw [ih hcs]

theorem scanChars_inside_word (values : List (String × TemplateValue))
    (n : List Char) (hw : ∀ c ∈ n, isWordChar c) :
    ∀ (acc rest : List Char),
      scanChars values (.inside acc) (n ++ rest)
        = scanChars values (.inside (acc ++ n)) rest := by
  induction n with
  | nil => intro acc rest; simp
  | cons c cs ih =>
    intro acc rest
    have hc : isWordChar c := hw c (List.mem_cons_self c cs)
    have hcs : ∀ ch ∈ cs, isWordChar ch :=
      fun ch hm => hw ch (List.mem_cons_of_mem c hm)
    simp only [List.cons_append, scanChars, if_pos hc, List.append_eq]
    rw [ih hcs (acc ++ [c]) rest]
    simp

theorem scanChars_ph (values : List (String × TemplateValue))
    (n rest : List Char) (hne : n ≠ []) (hw : ∀ c ∈ n, isWordChar c) :
    scanChars values .outside ('\x7b' :: (n ++ '\x7d' :: rest))
      = (placeholderSubst values (String.mk n)).data
          ++ scanChars values .outside rest := by
  have hword : isWordChar '\x7d' = false := by decide
  simp only [scanChars, if_pos rfl]
  rw [scanChars_inside_word values n hw [] ('\x7d' :: rest)]
  simp only [List.nil_append, scanChars, hword]
  simp [hne]

/-- Claim C8 (amended): on any template assembled from well-formed segments
(literal text without opening braces, placeholder names that are non-empty
runs of word characters), `replacePlaceholders` substitutes each placeholder
whose name maps to a value with a non-empty string form — in particular a
numeric zero, rendered `"0"` — and leaves every other placeholder verbatim:
an unrecognized name, but also (this is where the original claim fails) a
recognized name whose supplied value renders to the empty string. -/
theorem replacePlaceholders_segments (values : List (String × TemplateValue))
    (segs : List TemplateSeg) (hwf : ∀ seg ∈ segs, segWF seg) :
    replacePlaceholders (concatStrings (segs.map TemplateSeg.renderSrc)) values
      = concatStrings (segs.map (substSeg values)) := by
  induction segs with
  | nil =>
    show replacePlaceholders "" values = ""
    unfold replacePlaceholders
    rw [show ("" : String).data = [] from rfl, scanChars]
  | cons seg rest ih =>
    have hseg : segWF seg := hwf seg (List.mem_cons_self seg rest)
    have hrest : ∀ s ∈ rest, segWF s :=
      fun s hm => hwf s (List.mem_cons_of_mem seg hm)
    have ihr := ih hrest
    cases seg with
    | text s =>
      show replacePlaceholders (s ++ concatStrings (rest.map TemplateSeg.renderSrc)) values
        = s ++ concatStrings (rest.map (substSeg values))
      unfold replacePlaceholders at ihr ⊢
      rw [String.data_append, scanChars_copy values _ _ hseg]
      rw [show String.mk (s.data ++ scanChars values .outside (concatStrings (rest.map TemplateSeg.renderSrc)).data)
        = s ++ String.mk (scanChars values .outside (concatStrings (rest.map TemplateSeg.renderSrc)).data) from rfl]
      rw [ihr]
    | ph n =>
      obtain ⟨hne, hw⟩ := hseg
      show replacePlaceholders (("\x7b" ++ n ++ "\x7d") ++ concatStrings (rest.map TemplateSeg.renderSrc)) values
        = placeholderSubst values n ++ concatStrings (rest.map (substSeg values))
      unfold replacePlaceholders at ihr ⊢
      have hdata : (("\x7b" ++ n ++ "\x7d") ++ concatStrings (rest.map TemplateSeg.renderSrc)).data
          = '\x7b' :: (n.data ++ '\x7d' :: (concatStrings (rest.map TemplateSeg.renderSrc)).data) := by
        simp [String.data_append]
      rw [hdata, scanChars_ph values n.data _ hne hw]
      rw [show String.mk ((placeholderSubst values (String.mk n.data)).data
            ++ scanChars values .outside (concatStrings (rest.map TemplateSeg.renderSrc)).data)
          = placeholderSubst values (String.mk n.data)
            ++ String.mk (scanChars values .outside (concatStrings (rest.map TemplateSeg.renderSrc)).data) from rfl]
      rw [ihr]

/-- Witness for claim C8: the amended substitution theorem applied to a
concrete template with a numeric value, an unknown placeholder, and a value
rendering to the empty string. -/
theorem replacePlaceholders_segments_witness :
    replacePlaceholders (concatStrings (c8Segs.map TemplateSeg.renderSrc))
        c8Values
      = concatStrings (c8Segs.map (substSeg c8Values)) :=
  replacePlaceholders_segments c8Values c8Segs (by decide)

/-- Claim C8 counterexample: the placeholder `\x7bsubtitle\x7d` is a
recognized name supplied with the empty string, yet `replacePlaceholders`
leaves it verbatim instead of substituting the empty value
(`values[key]?.toString() || match` falls back to `match` on `""`). -/
theorem empty_value_placeholder_not_replaced :
    replacePlaceholders "\x7bsubtitle\x7d" [("subtitle", TemplateValue.str "")]
      = "\x7bsubtitle\x7d" ∧
    ("\x7bsubtitle\x7d" : String) ≠ "" := by
  constructor
  · rfl
  · decide

/-- Claim C10 (confirmed): `getObjectKey` substitutes the sentinel namespace
`"default"` both for an absent and for an empty-string
`metadata.namespace`, so the namespace slot of a produced key is never
empty. -/
theorem getObjectKey_defaults_namespace (obj : KubernetesObject) :
    ((obj.namespaceField = none ∨ obj.namespaceField = some "") →
      getObjectKey obj
        = obj.apiVersion ++ "/" ++ obj.kind ++ "/" ++
            KUBERNETES.DEFAULT_NAMESPACE ++ "/" ++ obj.name)
    ∧ ∃ ns, ns ≠ "" ∧
        getObjectKey obj
          = obj.apiVersion ++ "/" ++ obj.kind ++ "/" ++ ns ++ "/" ++ obj.name := by
  constructor
  · rintro (h | h) <;> simp [getObjectKey, h]
  · cases hn : obj.namespaceField with
    | none =>
      exact ⟨KUBERNETES.DEFAULT_NAMESPACE, by decide, by simp [getObjectKey, hn]⟩
    | some s =>
      by_cases hs : s = ""
      · exact ⟨KUBERNETES.DEFAULT_NAMESPACE, by decide,
          by simp [getObjectKey, hn, hs]⟩
      · exact ⟨s, hs, by simp [getObjectKey, hn, hs]⟩

/-- Witness for claim C10: an object with an empty-string namespace gets the
default namespace in its key. -/
theorem getObjectKey_defaults_namespace_witness :
    getObjectKey nsEmptyObj
      = nsEmptyObj.apiVersion ++ "/" ++ nsEmptyObj.kind ++ "/" ++
          KUBERNETES.DEFAULT_NAMESPACE ++ "/" ++ nsEmptyObj.name :=
  (getObjectKey_defaults_namespace nsEmptyObj).1 (Or.inr rfl)

/-! ## Diff-engine lemmas (claims C1, C4, C5, C6) -/

theorem diffForKey_shape (currentObjects targetObjects : ObjectMap)
    (k : String) :
    diffForKey currentObjects targetObjects k = [] ∨
      ∃ r, diffForKey currentObjects targetObjects k = [r] ∧
        r.objectKey = k := by
  unfold diffForKey
  dsimp only
  repeat' split
  all_goals first
    | (left; rfl)
    | (right; exact ⟨_, rfl, rfl⟩)

theorem diffForKey_eq_nil_of_getEq (currentObjects targetObjects : ObjectMap)
    (k : String)
    (h : mapGet currentObjects k = mapGet targetObjects k) :
    diffForKey currentObjects targetObjects k = [] := by
  unfold diffForKey
  rw [← h]
  cases ho : mapGet currentObjects k with
  | none => simp [truthyOpt]
  | some v =>
    by_cases hv : v.jsTruthy
    · simp [truthyOpt, hv]
    · simp [truthyOpt, hv]

theorem mem_dedupFirst (k : String) :
    ∀ (l seen : List String), k ∈ dedupFirst seen l ↔ k ∈ l ∧ k ∉ seen := by
  intro l
  induction l with
  | nil => intro seen; simp [dedupFirst]
  | cons a l ih =>
    intro seen
    simp only [dedupFirst]
    by_cases ha : a ∈ seen
    · rw [if_pos ha, ih seen]
      constructor
      · rintro ⟨h1, h2⟩
        exact ⟨List.mem_cons_of_mem a h1, h2⟩
      · rintro ⟨h1, h2⟩
        rcases List.mem_cons.mp h1 with rfl | h1
        · exact absurd ha h2
        · exact ⟨h1, h2⟩
    · rw [if_neg ha]
      constructor
      · intro h
        rcases List.mem_cons.mp h with rfl | h
        · exact ⟨List.mem_cons_self k l, ha⟩
        · obtain ⟨h1, h2⟩ := (ih (a :: seen)).mp h
          exact ⟨List.mem_cons_of_mem a h1,
            fun hs => h2 (List.mem_cons_of_mem a hs)⟩
      · rintro ⟨h1, h2⟩
        rcases List.mem_cons.mp h1 with rfl | h1
        · exact List.mem_cons_self k _
        · by_cases hk : k = a
          · subst hk
            exact List.mem_cons_self k _
          · refine List.mem_cons_of_mem a ((ih (a :: seen)).mpr ⟨h1, ?_⟩)
            intro hs
            rcases List.mem_cons.mp hs with h | h
            · exact hk h
            · exact h2 h

theorem nodup_dedupFirst :
    ∀ (l seen : List String), (dedupFirst seen l).Nodup := by
  intro l
  induction l with
  | nil => intro seen; simp [dedupFirst]
  | cons a l ih =>
    intro seen
    simp only [dedupFirst]
    by_cases ha : a ∈ seen
    · rw [if_pos ha]; exact ih seen
    · rw [if_neg ha]
      refine List.nodup_cons.mpr ⟨fun hmem => ?_, ih (a :: seen)⟩
      exact ((mem_dedupFirst a l (a :: seen)).mp hmem).2
        (List.mem_cons_self a seen)

theorem mem_unionKeys (currentObjects targetObjects : ObjectMap)
    (k : String) :
    k ∈ unionKeys currentObjects targetObjects ↔
      k ∈ currentObjects.map Prod.fst ∨ k ∈ targetObjects.map Prod.fst := by
  unfold unionKeys
  rw [mem_dedupFirst]
  simp

theorem mapGet_eq_none_of_not_mem (m : ObjectMap) (k : String)
    (h : k ∉ m.map Prod.fst) : mapGet m k = none := by
  unfold mapGet
  rw [List.find?_eq_none.mpr]
  · rfl
  · intro p hp
    simp only [beq_iff_eq]
    intro hpk
    exact h (List.mem_map.mpr ⟨p, hp, hpk⟩)

theorem mem_of_mapGet_eq_some (m : ObjectMap) (k : String) (v : YamlValue)
    (h : mapGet m k = some v) : k ∈ m.map Prod.fst := by
  unfold mapGet at h
  cases hf : m.find? (fun p => p.1 == k) with
  | none => rw [hf] at h; exact absurd h (by simp)
  | some p =>
    have hp := List.find?_some hf
    have hmem := List.mem_of_find?_eq_some hf
    simp only [beq_iff_eq] at hp
    exact hp ▸ List.mem_map.mpr ⟨p, hmem, rfl⟩

theorem recordsForKey_flatMap (currentObjects targetObjects : ObjectMap)
    (k : String) :
    ∀ l : List String, l.Nodup →
      recordsForKey (l.flatMap (diffForKey currentObjects targetObjects)) k
        = if k ∈ l then diffForKey currentObjects targetObjects k else [] := by
  intro l
  induction l with
  | nil => intro _; simp [recordsForKey]
  | cons a l ih =>
    intro hnd
    obtain ⟨ha, hl⟩ := List.nodup_cons.mp hnd
    have hfirst : (diffForKey currentObjects targetObjects a).filter
        (fun r => r.objectKey == k)
        = if a = k then diffForKey currentObjects targetObjects k else [] := by
      rcases diffForKey_shape currentObjects targetObjects a
        with h | ⟨r, hr, hk2⟩
      · by_cases hak : a = k
        · subst hak
          rw [h, if_pos rfl]
          rfl
        · rw [h, if_neg hak]
          rfl
      · by_cases hak : a = k
        · subst hak
          rw [hr, if_pos rfl, List.filter_cons, if_pos (by simp [hk2])]
          rfl
        · rw [hr, if_neg hak, List.filter_cons,
            if_neg (by simp [hk2]; exact hak)]
          rfl
    rw [List.flatMap_cons, recordsForKey, List.filter_append]
    rw [show List.filter (fun r => r.objectKey == k)
        (l.flatMap (diffForKey currentObjects targetObjects))
      = recordsForKey (l.flatMap (diffForKey currentObjects targetObjects)) k
      from rfl]
    rw [ih hl, hfirst]
    by_cases hak : a = k
    · subst hak
      rw [if_pos rfl, if_neg ha, if_pos (List.mem_cons_self a l)]
      simp
    · have hiff : (k ∈ a :: l) ↔ k ∈ l := by
        rw [List.mem_cons]
        constructor
        · rintro (rfl | h)
          · exact absurd rfl hak
          · exact h
        · exact Or.inr
      rw [if_neg hak, List.nil_append, if_congr hiff rfl rfl]

theorem recordsForKey_computeDiffs (currentObjects targetObjects : ObjectMap)
    (k : String) :
    recordsForKey (computeDiffs currentObjects targetObjects) k
      = diffForKey currentObjects targetObjects k := by
  have hnd : (unionKeys currentObjects targetObjects).Nodup :=
    nodup_dedupFirst _ []
  unfold computeDiffs
  rw [recordsForKey_flatMap currentObjects targetObjects k _ hnd]
  by_cases hk : k ∈ unionKeys currentObjects targetObjects
  · rw [if_pos hk]
  · rw [if_neg hk]
    have h1 : mapGet currentObjects k = none :=
      mapGet_eq_none_of_not_mem _ _
        (fun hm => hk ((mem_unionKeys _ _ k).mpr (Or.inl hm)))
    have h2 : mapGet targetObjects k = none :=
      mapGet_eq_none_of_not_mem _ _
        (fun hm => hk ((mem_unionKeys _ _ k).mpr (Or.inr hm)))
    rw [diffForKey_eq_nil_of_getEq _ _ _ (h1.trans h2.symm)]

theorem flatMap_diffForKey_eq_nil (currentObjects targetObjects : ObjectMap)
    (l : List String)
    (h : ∀ k ∈ l, diffForKey currentObjects targetObjects k = []) :
    l.flatMap (diffForKey currentObjects targetObjects) = [] := by
  induction l with
  | nil => rfl
  | cons a l ih =>
    rw [List.flatMap_cons, h a (List.mem_cons_self a l),
      ih (fun k hk => h k (List.mem_cons_of_mem a hk))]
    rfl

/-- Claim C1 (amended): the diff records come out in key-union insertion
order — the keys of `current` in their insertion order followed by the keys
only in `target` in theirs, restricted to the keys that produce a record.
The output is not sorted by key (see the counterexample). -/
theorem computeDiffs_union_order (currentObjects targetObjects : ObjectMap) :
    keysOf (computeDiffs currentObjects targetObjects)
      = (unionKeys currentObjects targetObjects).filter
          (emitsRecord currentObjects targetObjects) := by
  unfold computeDiffs keysOf
  generalize unionKeys currentObjects targetObjects = l
  induction l with
  | nil => rfl
  | cons a l ih =>
    rw [List.flatMap_cons, List.map_append, ih, List.filter_cons]
    rcases diffForKey_shape currentObjects targetObjects a
      with h | ⟨r, hr, hk⟩
    · rw [h]
      simp [emitsRecord, h]
    · rw [hr]
      simp [emitsRecord, hr, hk]

/-- Claim C1 counterexample: a current collection inserted in descending key
order produces records in that same insertion order — `["b/b/b/b",
"a/a/a/a"]` — so the output sequence is not sorted ascending by
`ObjectKey` as the claim states. -/
theorem computeDiffs_not_sorted :
    keysOf (computeDiffs c1Cur ([] : ObjectMap)) = ["b/b/b/b", "a/a/a/a"] ∧
    sortedByKeyAsc (computeDiffs c1Cur ([] : ObjectMap)) = false := by
  constructor
  · rfl
  · decide

/-- Claim C4 (amended): for a key whose documents are present (and truthy)
in both collections, the diff emits a record — necessarily a single
`modified` record carrying the unified patch — exactly when the two
documents' order-preserving serialisations (`Document.toString()`) differ;
equal serialisations leave the key out of the result.  The comparison is not
performed on a canonically key-sorted form (see the counterexample). -/
theorem modified_iff_serialization_differs
    (currentObjects targetObjects : ObjectMap) (k : String)
    (c t : YamlValue)
    (hc : mapGet currentObjects k = some c)
    (ht : mapGet targetObjects k = some t)
    (hct : c.jsTruthy = true) (htt : t.jsTruthy = true) :
    recordsForKey (computeDiffs currentObjects targetObjects) k
      = if c.renderYaml = t.renderYaml then []
        else [{ objectKey := k, status := .modified,
                currentObject := some c, targetObject := some t,
                diff := some (createTwoFilesPatch ("target/" ++ k)
                  ("current/" ++ k) t.renderYaml c.renderYaml) }] := by
  rw [recordsForKey_computeDiffs]
  unfold diffForKey
  rw [hc, ht]
  simp only [truthyOpt, hct, htt]
  by_cases he : c.renderYaml = t.renderYaml
  · simp [he]
  · simp [he]

/-- Witness for claim C4: the two payload versions of the same document
serialise differently, so the key yields exactly the modified record. -/
theorem modified_iff_serialization_differs_witness :
    recordsForKey (computeDiffs c4Cur c4Tgt) "K"
      = if YamlValue.renderYaml docA1 = YamlValue.renderYaml docA2 then []
        else [{ objectKey := "K", status := .modified,
                currentObject := some docA1, targetObject := some docA2,
                diff := some (createTwoFilesPatch ("target/" ++ "K")
                  ("current/" ++ "K") (YamlValue.renderYaml docA2)
                  (YamlValue.renderYaml docA1)) }] :=
  modified_iff_serialization_differs c4Cur c4Tgt "K" docA1 docA2
    rfl rfl rfl rfl

/-- Claim C4 counterexample: two structurally equal documents whose fields
are listed in different orders have byte-identical canonical (key-sorted)
serialisations, yet the diff emits a `modified` record for their key —
because the code compares the order-preserving `toString()` forms, not the
canonical ones. -/
theorem canonical_equal_yet_modified :
    YamlValue.renderCanonical reorderedDoc1
        = YamlValue.renderCanonical reorderedDoc2 ∧
    (modifiedFor (computeDiffs [("K", reorderedDoc1)] [("K", reorderedDoc2)])
        "K").length = 1 := by
  constructor
  · decide
  · decide

/-- Claim C5 (confirmed): for every key — in the union of the two key sets
or not — the records of the diff result carrying that key are exactly the
records of the loop body's classification for it (absent from the result,
`added` when only `current` holds it, `removed` when only `target` holds it,
`modified` when both hold serialisation-different documents), and that
classification yields at most one record, which carries the key itself. -/
theorem records_partition (currentObjects targetObjects : ObjectMap)
    (k : String) :
    recordsForKey (computeDiffs currentObjects targetObjects) k
        = diffForKey currentObjects targetObjects k
    ∧ (diffForKey currentObjects targetObjects k = []
        ∨ ∃ r, diffForKey currentObjects targetObjects k = [r] ∧
            r.objectKey = k) :=
  ⟨recordsForKey_computeDiffs currentObjects targetObjects k,
   diffForKey_shape currentObjects targetObjects k⟩

/-- Claim C6 (confirmed): diffing a collection against itself yields no
records, and more generally a key whose lookup results agree in the two
collections contributes no record to the result. -/
theorem diff_self_empty :
    (∀ a : ObjectMap, computeDiffs a a = [])
    ∧ ∀ (a b : ObjectMap) (k : String),
        mapGet a k = mapGet b k →
        recordsForKey (computeDiffs a b) k = [] := by
  constructor
  · intro a
    unfold computeDiffs
    exact flatMap_diffForKey_eq_nil a a _
      (fun k _ => diffForKey_eq_nil_of_getEq a a k rfl)
  · intro a b k h
    rw [recordsForKey_computeDiffs, diffForKey_eq_nil_of_getEq a b k h]

/-- Witness for claim C6: a concrete collection diffed against itself, and a
shared identical document contributing no record. -/
theorem diff_self_empty_witness :
    computeDiffs c6A c6A = [] ∧
    recordsForKey (computeDiffs c6A c6B) "shared" = [] :=
  ⟨diff_self_empty.1 c6A, diff_self_empty.2 c6A c6B "shared" rfl⟩

/-! ## Parser lemmas (claim C2) -/

theorem mapGet_cons (p : String × YamlValue) (ps : ObjectMap) (k : String) :
    mapGet (p :: ps) k = if p.1 == k then some p.2 else mapGet ps k := by
  unfold mapGet
  rw [List.find?]
  by_cases h : p.1 == k
  · simp [h]
  · simp [h]

theorem mapGet_mapSet (m : ObjectMap) (k k2 : String) (v : YamlValue) :
    mapGet (mapSet m k v) k2 = if k2 = k then some v else mapGet m k2 := by
  induction m with
  | nil =>
    unfold mapSet
    rw [mapGet_cons]
    by_cases h : k2 = k
    · subst h; simp
    · simp [h]
      intro hk
      exact absurd hk.symm h
  | cons p ps ih =>
    unfold mapSet
    by_cases hp : p.1 == k
    · rw [if_pos hp, mapGet_cons, mapGet_cons]
      have hpk : p.1 = k := by simpa using hp
      by_cases h : k2 = k
      · subst h; simp [hpk]
      · have : (k == k2) = false := by
          simp
          intro hk
          exact absurd hk.symm h
        simp [this, hpk, h]
    · rw [if_neg hp, mapGet_cons, mapGet_cons, ih]
      have hpk : ¬ p.1 = k := by simpa using hp
      by_cases h2 : p.1 == k2
      · have hk2 : p.1 = k2 := by simpa using h2
        have : ¬ k2 = k := fun hh => hpk (hk2.symm ▸ hh)
        simp [h2, this]
      · simp [h2]

theorem mapGet_nil (k : String) : mapGet ([] : ObjectMap) k = none := rfl

theorem mapGet_append (l1 l2 : ObjectMap) (k : String) :
    mapGet (l1 ++ l2) k = (mapGet l1 k).or (mapGet l2 k) := by
  induction l1 with
  | nil => rw [List.nil_append, mapGet_nil, Option.none_or]
  | cons p ps ih =>
    rw [List.cons_append, mapGet_cons, mapGet_cons]
    by_cases h : p.1 == k
    · simp [h]
    · simp [h, ih]

theorem parseManifests_go_ok (docs : List YamlValue) :
    ∀ objects : ObjectMap,
      (∀ d ∈ docs, isValidKubernetesObject d = true) →
      ∃ m, parseManifests.go objects docs = .ok m ∧
        ∀ k, mapGet m k
          = (mapGet (keyedDocs docs).reverse k).or (mapGet objects k) := by
  induction docs with
  | nil =>
    intro objects _
    refine ⟨objects, rfl, fun k => ?_⟩
    simp [keyedDocs, mapGet_nil]
  | cons d ds ih =>
    intro objects hall
    have hd : isValidKubernetesObject d = true :=
      hall d (List.mem_cons_self d ds)
    have hds : ∀ x ∈ ds, isValidKubernetesObject x = true :=
      fun x hx => hall x (List.mem_cons_of_mem d hx)
    obtain ⟨m, hm, hmk⟩ := ih (mapSet objects (getObjectKeyV d) d) hds
    refine ⟨m, ?_, ?_⟩
    · rw [parseManifests.go, if_pos hd]
      exact hm
    · intro k
      rw [hmk k, mapGet_mapSet]
      have hrev : (keyedDocs (d :: ds)).reverse
          = (keyedDocs ds).reverse ++ [(getObjectKeyV d, d)] := by
        simp [keyedDocs]
      rw [hrev, mapGet_append, Option.or_assoc]
      congr 1
      rw [mapGet_cons, mapGet_nil]
      by_cases h : k = getObjectKeyV d
      · subst h; simp
      · have : (getObjectKeyV d == k) = false := by
          simp
          intro hk
          exact absurd hk.symm h
        simp [this, h]

theorem parseManifests_go_error (docs : List YamlValue) :
    ∀ objects : ObjectMap,
      (∃ d ∈ docs, isValidKubernetesObject d = false) →
      (parseManifests.go objects docs).toOption = none := by
  induction docs with
  | nil =>
    rintro objects ⟨d, hd, _⟩
    exact absurd hd (List.not_mem_nil d)
  | cons d ds ih =>
    rintro objects ⟨x, hx, hxv⟩
    by_cases hd : isValidKubernetesObject d
    · rcases List.mem_cons.mp hx with rfl | hx2
      · rw [hd] at hxv
        cases hxv
      · rw [parseManifests.go, if_pos hd]
        exact ih (mapSet objects (getObjectKeyV d) d) ⟨x, hx2, hxv⟩
    · rw [parseManifests.go, if_neg hd]
      rfl

/-- Claim C2 (amended): the parse of `src/manifest-comparator.ts` fails — the
first offending fragment's error is rethrown for the whole file — precisely
when some fragment's decoded value fails `isValidKubernetesObject`, i.e. is
not an object with string-typed `kind`, `apiVersion` and `metadata.name`
(empty strings are accepted as valid, and empty fragments, which this
variant does not discard, decode to `null` and therefore fail); otherwise it
returns the keyed collection of all parsed documents, a later document
overwriting an earlier one with the same object key. -/
theorem parseManifests_contract (docs : List YamlValue) (k : String) :
    ((∀ d ∈ docs, isValidKubernetesObject d = true) →
      parsedLookup docs k = some (mapGet (keyedDocs docs).reverse k))
    ∧ ((∃ d ∈ docs, isValidKubernetesObject d = false) →
      (parseManifests docs).toOption = none) := by
  constructor
  · intro hall
    obtain ⟨m, hm, hmk⟩ := parseManifests_go_ok docs [] hall
    unfold parsedLookup parseManifests
    rw [hm]
    show some (mapGet m k) = _
    rw [hmk k, mapGet_nil, Option.or_none]
  · intro hex
    unfold parseManifests
    exact parseManifests_go_error docs [] hex

/-- Witness for claim C2: two valid documents sharing one object key parse
into a collection where the later document wins, and a fragment decoding to
`null` (e.g. the empty fragment produced by a leading `---` line) makes the
whole parse fail. -/
theorem parseManifests_contract_witness :
    parsedLookup [docA1, docA2] "v1/ConfigMap/default/app"
        = some (mapGet (keyedDocs [docA1, docA2]).reverse
            "v1/ConfigMap/default/app")
    ∧ (parseManifests [YamlValue.null]).toOption = none :=
  ⟨(parseManifests_contract [docA1, docA2] "v1/ConfigMap/default/app").1
      (by decide),
   (parseManifests_contract [YamlValue.null] "x").2 (by decide)⟩

/-- Claim C2 counterexample: a fragment whose `kind` field is present but
empty is accepted by the validation (`typeof "" === 'string'`), so the parse
returns the keyed collection — with an empty `kind` segment in the key —
instead of failing as the claim requires for a field that is not present and
non-empty. -/
theorem empty_kind_accepted :
    YamlValue.field emptyKindDoc "kind" = some (.str "") ∧
    parseManifests [emptyKindDoc] = .ok [("v1//default/a", emptyKindDoc)] := by
  constructor
  · rfl
  · rfl

/-! ## Channel claims (claim C9) -/

/-- Claim C9 (amended): the mark-superseded loop is wrapped in a single
`try`/`catch`, so the attempted marks are the successful prefix plus the
first failing id — a failure on one prior segment aborts the marking of the
remaining ones (this is where the original claim fails) — but the failure is
downgraded to a warning there, and the posting of the new segments is
completely independent of the mark oracle's behaviour. -/
theorem marking_single_catch :
    (∀ (markOk : String → Bool) (ids : List String),
      markLoop markOk ids
        = (ids.takeWhile markOk ++ (ids.dropWhile markOk).take 1,
           !(ids.dropWhile markOk).isEmpty))
    ∧ ∀ (title subtitle : String) (maxCommentLength : Nat)
        (listing : Except String (List PriorComment))
        (markOk markOk2 postOk : String → Bool) (diffs : List ManifestDiff),
        (postPullRequestComments title subtitle maxCommentLength listing
            markOk postOk diffs).postAttempts
          = (postPullRequestComments title subtitle maxCommentLength listing
              markOk2 postOk diffs).postAttempts
        ∧ (postPullRequestComments title subtitle maxCommentLength listing
            markOk postOk diffs).fellBack
          = (postPullRequestComments title subtitle maxCommentLength listing
              markOk2 postOk diffs).fellBack := by
  constructor
  · intro markOk ids
    induction ids with
    | nil => rfl
    | cons a ids ih =>
      by_cases h : markOk a
      · simp [markLoop, h, List.takeWhile, List.dropWhile, ih]
      · simp [markLoop, h, List.takeWhile, List.dropWhile]
  · intro title subtitle maxCommentLength listing markOk markOk2 postOk diffs
    constructor
    · rfl
    · rfl

/-- Claim C9 counterexample: with two prior self-authored segments and a
mark oracle on which every mutation fails, the failure on the first segment
aborts the loop — the second qualifying segment is never attempted, against
the claimed per-segment independence. -/
theorem mark_failure_aborts_rest :
    isBotDiffComment "Kubernetes Manifests Diff" priorBotB = true ∧
    (minimizeExistingComments "Kubernetes Manifests Diff"
        (Except.ok [priorBotA, priorBotB]) alwaysFailMark).1 = ["idA"] := by
  constructor
  · decide
  · decide

/-! ## Paginator lemmas (claims C3, C7) -/

theorem str_append_empty (s : String) : s ++ "" = s := by
  cases s with
  | mk data => exact congrArg String.mk (List.append_nil data)

theorem concatStrings_append (l1 l2 : List String) :
    concatStrings (l1 ++ l2) = concatStrings l1 ++ concatStrings l2 := by
  induction l1 with
  | nil => rfl
  | cons s ss ih =>
    rw [List.cons_append]
    show s ++ concatStrings (ss ++ l2) = (s ++ concatStrings ss) ++ concatStrings l2
    rw [ih, String.append_assoc]

theorem concatStrings_snoc (l : List String) (b : String) :
    concatStrings (l ++ [b]) = concatStrings l ++ b := by
  rw [concatStrings_append]
  show concatStrings l ++ (b ++ "") = concatStrings l ++ b
  rw [str_append_empty]

theorem openPre_ch (ch : String) (gs : List (List String)) :
    openPre ch ch gs = ch := by
  unfold openPre
  by_cases h : gs.isEmpty
  · rw [if_pos h]
  · rw [if_neg h]

theorem closedSegsFrom_ch (ch c : String) (l : List (List String)) :
    closedSegsFrom ch ch c l
      = l.map (fun g => ch ++ concatStrings g ++ c) := by
  cases l with
  | nil => rfl
  | cons g gs => rfl

theorem paginate_loop_chunks (maxCommentLength : Nat) (f c ch : String) :
    ∀ (blocks cs : List String) (pre : String) (g : List String),
      ∃ gs gopen,
        (gs ++ [gopen]).flatten = g ++ blocks ∧
        blocks.foldl (paginateStep maxCommentLength f c ch)
            (cs, pre ++ concatStrings g)
          = (cs ++ closedSegsFrom pre ch c gs,
             openPre pre ch gs ++ concatStrings gopen) := by
  intro blocks
  induction blocks with
  | nil =>
    intro cs pre g
    exact ⟨[], g, by simp, by simp [closedSegsFrom, openPre]⟩
  | cons b bs ih =>
    intro cs pre g
    rw [List.foldl_cons]
    by_cases hif : (pre ++ concatStrings g).length + b.length
        + (f.length + GITHUB.COMMENT_LENGTH_BUFFER) > maxCommentLength
    · have hstep : paginateStep maxCommentLength f c ch
          (cs, pre ++ concatStrings g) b
          = (cs ++ [pre ++ concatStrings g ++ c], ch ++ b) := by
        unfold paginateStep
        rw [if_pos hif]
      rw [hstep]
      have hb1 : ch ++ b = ch ++ concatStrings [b] := by
        show ch ++ b = ch ++ (b ++ "")
        rw [str_append_empty]
      obtain ⟨gs, gopen, hj, hres⟩ :=
        ih (cs ++ [pre ++ concatStrings g ++ c]) ch [b]
      refine ⟨g :: gs, gopen, ?_, ?_⟩
      · rw [List.cons_append, List.flatten_cons, hj]
        rfl
      · rw [hb1, hres, openPre_ch, closedSegsFrom_ch]
        rw [show closedSegsFrom pre ch c (g :: gs)
            = (pre ++ concatStrings g ++ c)
                :: List.map (fun gi => ch ++ concatStrings gi ++ c) gs
          from rfl]
        rw [show openPre pre ch (g :: gs) = ch from rfl]
        rw [List.append_assoc]
        rfl
    · have hstep : paginateStep maxCommentLength f c ch
          (cs, pre ++ concatStrings g) b
          = (cs, (pre ++ concatStrings g) ++ b) := by
        unfold paginateStep
        rw [if_neg hif]
      rw [hstep]
      have hmerge : (pre ++ concatStrings g) ++ b
          = pre ++ concatStrings (g ++ [b]) := by
        rw [concatStrings_snoc, ← String.append_assoc]
      obtain ⟨gs, gopen, hj, hres⟩ := ih cs pre (g ++ [b])
      refine ⟨gs, gopen, ?_, ?_⟩
      · rw [hj, List.append_assoc]
        rfl
      · rw [hmerge]
        exact hres

theorem renderRest_snoc (ch c f : String) (gopen : List String) :
    ∀ rest : List (List String),
      renderRest ch c f (rest ++ [gopen])
        = rest.map (fun g => ch ++ concatStrings g ++ c)
            ++ [ch ++ concatStrings gopen ++ f] := by
  intro rest
  induction rest with
  | nil => rfl
  | cons g1 rest ih =>
    cases rest with
    | nil =>
      rw [List.nil_append] at ih
      rw [List.cons_append, List.nil_append]
      rw [show renderRest ch c f (g1 :: [gopen])
          = (ch ++ concatStrings g1 ++ c) :: renderRest ch c f [gopen]
        from rfl]
      rw [ih]
      rfl
    | cons g2 r2 =>
      rw [List.cons_append]
      rw [show renderRest ch c f (g1 :: ((g2 :: r2) ++ [gopen]))
          = (ch ++ concatStrings g1 ++ c)
              :: renderRest ch c f ((g2 :: r2) ++ [gopen]) from by
        rw [List.cons_append]
        rfl]
      rw [ih]
      rfl

/-- Claim C7 (confirmed): the paginator partitions the ordered list of
rendered record blocks into consecutive chunks — no block split, dropped,
duplicated or reordered — and each produced segment is exactly its chunk's
concatenated blocks wrapped in the framing: the header on the first segment,
the continuation header on later ones, the continuation text closing
non-final segments and the footer closing the final one.  Removing that
framing and concatenating the segment bodies in order therefore reproduces
exactly the concatenation of the rendered blocks in input order. -/
theorem segments_reassemble (title subtitle : String)
    (maxCommentLength : Nat) (diffs : List ManifestDiff) :
    ∃ chunks : List (List String),
      chunks ≠ [] ∧
      chunks.flatten = diffs.map formatDiffSection ∧
      formatDiffsAsComments title subtitle maxCommentLength diffs
        = renderSegments (getCommentHeader title subtitle diffs)
            (contHeaderRendered title) COMMENTS.CONTINUATION_TEXT
            (getCommentFooter diffs) chunks := by
  obtain ⟨gs, gopen, hj, hres⟩ :=
    paginate_loop_chunks maxCommentLength (getCommentFooter diffs)
      COMMENTS.CONTINUATION_TEXT (contHeaderRendered title)
      (diffs.map formatDiffSection) [] (getCommentHeader title subtitle diffs)
      []
  rw [List.nil_append] at hj
  rw [show getCommentHeader title subtitle diffs ++ concatStrings []
      = getCommentHeader title subtitle diffs from str_append_empty _] at hres
  rw [List.nil_append] at hres
  refine ⟨gs ++ [gopen], by simp, hj, ?_⟩
  show (List.foldl
      (fun acc d => paginateStep maxCommentLength (getCommentFooter diffs)
        COMMENTS.CONTINUATION_TEXT (contHeaderRendered title) acc
        (formatDiffSection d))
      ([], getCommentHeader title subtitle diffs) diffs).1
    ++ [(List.foldl
      (fun acc d => paginateStep maxCommentLength (getCommentFooter diffs)
        COMMENTS.CONTINUATION_TEXT (contHeaderRendered title) acc
        (formatDiffSection d))
      ([], getCommentHeader title subtitle diffs) diffs).2
        ++ getCommentFooter diffs]
    = renderSegments (getCommentHeader title subtitle diffs)
        (contHeaderRendered title) COMMENTS.CONTINUATION_TEXT
        (getCommentFooter diffs) (gs ++ [gopen])
  rw [← List.foldl_map formatDiffSection, hres]
  cases gs with
  | nil =>
    rw [show closedSegsFrom (getCommentHeader title subtitle diffs)
        (contHeaderRendered title) COMMENTS.CONTINUATION_TEXT [] = []
      from rfl]
    rw [show openPre (getCommentHeader title subtitle diffs)
        (contHeaderRendered title) [] =
        getCommentHeader title subtitle diffs from rfl]
    rfl
  | cons g1 rest =>
    rw [show closedSegsFrom (getCommentHeader title subtitle diffs)
        (contHeaderRendered title) COMMENTS.CONTINUATION_TEXT (g1 :: rest)
      = (getCommentHeader title subtitle diffs
            ++ concatStrings g1 ++ COMMENTS.CONTINUATION_TEXT)
          :: rest.map (fun gi => contHeaderRendered title
            ++ concatStrings gi ++ COMMENTS.CONTINUATION_TEXT) from rfl]
    rw [show openPre (getCommentHeader title subtitle diffs)
        (contHeaderRendered title) (g1 :: rest)
      = contHeaderRendered title from rfl]
    rw [show renderSegments (getCommentHeader title subtitle diffs)
        (contHeaderRendered title) COMMENTS.CONTINUATION_TEXT
        (getCommentFooter diffs) ((g1 :: rest) ++ [gopen])
      = (getCommentHeader title subtitle diffs ++ concatStrings g1
          ++ COMMENTS.CONTINUATION_TEXT)
        :: renderRest (contHeaderRendered title) COMMENTS.CONTINUATION_TEXT
            (getCommentFooter diffs) (rest ++ [gopen]) from by
      rw [List.cons_append]
      cases rest with
      | nil => rfl
      | cons g2 r2 => rfl]
    rw [renderRest_snoc]
    rfl

theorem paginate_loop_bound (maxCommentLength : Nat) (f c ch : String)
    (hc : c.length ≤ f.length + GITHUB.COMMENT_LENGTH_BUFFER) :
    ∀ blocks : List String,
      (∀ b ∈ blocks, ch.length + b.length + f.length
          + GITHUB.COMMENT_LENGTH_BUFFER ≤ maxCommentLength) →
      ∀ acc : List String × String,
        (∀ s ∈ acc.1, s.length ≤ maxCommentLength) →
        acc.2.length + f.length + GITHUB.COMMENT_LENGTH_BUFFER
            ≤ maxCommentLength →
        (∀ s ∈ (blocks.foldl (paginateStep maxCommentLength f c ch) acc).1,
            s.length ≤ maxCommentLength)
        ∧ (blocks.foldl (paginateStep maxCommentLength f c ch) acc).2.length
            + f.length + GITHUB.COMMENT_LENGTH_BUFFER ≤ maxCommentLength := by
  intro blocks
  induction blocks with
  | nil =>
    intro _ acc h1 h2
    exact ⟨h1, h2⟩
  | cons b bs ih =>
    intro hb acc h1 h2
    have hbb := hb b (List.mem_cons_self b bs)
    have hbs : ∀ x ∈ bs, ch.length + x.length + f.length
        + GITHUB.COMMENT_LENGTH_BUFFER ≤ maxCommentLength :=
      fun x hx => hb x (List.mem_cons_of_mem b hx)
    rw [List.foldl_cons]
    by_cases hif : acc.2.length + b.length
        + (f.length + GITHUB.COMMENT_LENGTH_BUFFER) > maxCommentLength
    · have hstep : paginateStep maxCommentLength f c ch acc b
          = (acc.1 ++ [acc.2 ++ c], ch ++ b) := by
        unfold paginateStep
        rw [if_pos hif]
      rw [hstep]
      apply ih hbs
      · intro s hs
        rcases List.mem_append.mp hs with hs | hs
        · exact h1 s hs
        · rcases List.mem_singleton.mp hs with rfl
          rw [String.length_append]
          omega
      · rw [String.length_append]
        omega
    · have hstep : paginateStep maxCommentLength f c ch acc b
          = (acc.1, acc.2 ++ b) := by
        unfold paginateStep
        rw [if_neg hif]
      rw [hstep]
      apply ih hbs
      · exact h1
      · rw [String.length_append]
        omega

/-- Claim C3 (amended): a produced segment can exceed `maxCommentLength` —
even when every rendered block alone fits within it — whenever a single
block plus the continuation framing around it exceeds the limit (see the
counterexample); but under the overhead accounting the claim intends, i.e.
when every rendered block fits within the limit minus the continuation
header, the footer, the safety buffer (and the continuation text is no
longer than the footer plus buffer, and header plus footer plus buffer fit
the limit), every produced segment is within `maxCommentLength`. -/
theorem segments_within_bound (title subtitle : String)
    (maxCommentLength : Nat) (diffs : List ManifestDiff)
    (hh : (getCommentHeader title subtitle diffs).length
        + (getCommentFooter diffs).length + GITHUB.COMMENT_LENGTH_BUFFER
        ≤ maxCommentLength)
    (hc : COMMENTS.CONTINUATION_TEXT.length
        ≤ (getCommentFooter diffs).length + GITHUB.COMMENT_LENGTH_BUFFER)
    (hb : ∀ d ∈ diffs, (contHeaderRendered title).length
        + (formatDiffSection d).length + (getCommentFooter diffs).length
        + GITHUB.COMMENT_LENGTH_BUFFER ≤ maxCommentLength) :
    allSegmentsWithin title subtitle maxCommentLength diffs := by
  unfold allSegmentsWithin
  show ∀ s ∈ (List.foldl
      (fun acc d => paginateStep maxCommentLength (getCommentFooter diffs)
        COMMENTS.CONTINUATION_TEXT (contHeaderRendered title) acc
        (formatDiffSection d))
      ([], getCommentHeader title subtitle diffs) diffs).1
    ++ [(List.foldl
      (fun acc d => paginateStep maxCommentLength (getCommentFooter diffs)
        COMMENTS.CONTINUATION_TEXT (contHeaderRendered title) acc
        (formatDiffSection d))
      ([], getCommentHeader title subtitle diffs) diffs).2
        ++ getCommentFooter diffs],
    s.length ≤ maxCommentLength
  rw [← List.foldl_map formatDiffSection]
  have hblocks : ∀ b ∈ diffs.map formatDiffSection,
      (contHeaderRendered title).length + b.length
        + (getCommentFooter diffs).length + GITHUB.COMMENT_LENGTH_BUFFER
        ≤ maxCommentLength := by
    intro b hbm
    obtain ⟨d, hd, rfl⟩ := List.mem_map.mp hbm
    exact hb d hd
  have hmain := paginate_loop_bound maxCommentLength (getCommentFooter diffs)
    COMMENTS.CONTINUATION_TEXT (contHeaderRendered title) hc
    (diffs.map formatDiffSection)
    (fun b hbm => by have := hblocks b hbm; omega)
    ([], getCommentHeader title subtitle diffs)
    (by intro s hs; exact absurd hs (List.not_mem_nil s))
    hh
  intro s hs
  rcases List.mem_append.mp hs with hs | hs
  · exact hmain.1 s hs
  · rcases List.mem_singleton.mp hs with rfl
    rw [String.length_append]
    have := hmain.2
    omega

set_option maxRecDepth 100000 in
/-- Witness for claim C3: a single small record paginated under the default
60000-character limit stays within it. -/
theorem segments_within_bound_witness :
    allSegmentsWithin "Kubernetes Manifests Diff" "" 60000 c3SmallDiffs :=
  segments_within_bound "Kubernetes Manifests Diff" "" 60000 c3SmallDiffs
    (by decide) (by decide) (by decide)

set_option maxRecDepth 100000 in
/-- Claim C3 counterexample: with the limit set to 600, both rendered blocks
fit within the limit on their own (560 and 17 characters), yet the middle
produced segment — continuation header, first block, continuation text — is
640 characters long.  The claimed exception (a single block alone exceeding
the limit) does not apply, so the claim's bound fails. -/
theorem block_fits_but_segment_exceeds :
    allBlocksWithin 600 c3Diffs = true ∧
    anySegmentExceeds "Kubernetes Manifests Diff" "" 600 c3Diffs = true := by
  constructor
  · decide
  · decide

end ManifestsDiff
